import Mathlib

/-!
Verification of the bill-splitter core (`experiment/` variant):
shallow embedding of `models.py`, `input_collector.py` and
`bill_calculator.py`, with prices and totals as exact rationals
(the spec treats division as exact real-number division; rounding
is display-only).

Python dictionaries (`dishes: Dict[str, Dish]`, `people: Dict[str, Person]`)
are embedded as lists in insertion order; the dictionary key always equals
the stored object's `name`, so the key is kept inside the object and
key lookup becomes lookup by `name`.  Key uniqueness (inherent to a
Python dict) appears as a `Nodup` hypothesis where a proof needs it.
-/

/-- Python's `str.strip()`: drop leading and trailing whitespace.
(Defined over the character list so that it evaluates in the kernel.) -/
def pyStrip (s : String) : String :=
  ⟨((s.data.dropWhile Char.isWhitespace).reverse.dropWhile Char.isWhitespace).reverse⟩

/-- `Dish` from `models.py`: name, fixed price, list of eater names. -/
structure Dish where
  name : String
  price : ℚ
  eaters : List String
deriving DecidableEq

/-- `Dish.add_eater`: appends `person_name` unless already present. -/
def Dish.add_eater (d : Dish) (person_name : String) : Dish :=
  if person_name ∈ d.eaters then d
  else { d with eaters := d.eaters ++ [person_name] }

/-- `Dish.get_shared_price`: `0` when there are no eaters, else
`price / len(eaters)`. -/
def Dish.get_shared_price (d : Dish) : ℚ :=
  if d.eaters.length = 0 then 0 else d.price / d.eaters.length

/-- `Person` from `models.py`: name and accumulated total. -/
structure Person where
  name : String
  total : ℚ
deriving DecidableEq

/-- `Person.__init__`: strips the name, starts the total at `0.0`. -/
def Person.make (name : String) : Person :=
  { name := pyStrip name, total := 0 }

/-- `Person.add_to_total`. -/
def Person.add_to_total (p : Person) (amount : ℚ) : Person :=
  { p with total := p.total + amount }

/-- `Person.reset_total`. -/
def Person.reset_total (p : Person) : Person :=
  { p with total := 0 }

/-! ## `input_collector.py` -/

/-- Numeric value of a list of decimal digit characters. -/
def digitsVal (ds : List Char) : ℕ :=
  ds.foldl (fun a c => 10 * a + (c.toNat - 48)) 0

/-- Optional leading sign; returns (is-negative, rest). -/
def parseSign : List Char → Bool × List Char
  | '-' :: rest => (true, rest)
  | '+' :: rest => (false, rest)
  | l => (false, l)

/-- Mantissa of a decimal literal: digits, optionally with a decimal
point (`12`, `12.`, `12.5`, `.5`); returns its exact rational value and
the unconsumed rest. -/
def parseMantissa (l : List Char) : Option (ℚ × List Char) :=
  let ip := l.takeWhile Char.isDigit
  let r := l.dropWhile Char.isDigit
  match r with
  | '.' :: r2 =>
      let fp := r2.takeWhile Char.isDigit
      let r3 := r2.dropWhile Char.isDigit
      if ip.isEmpty && fp.isEmpty then none
      else some ((digitsVal ip : ℚ) + (digitsVal fp : ℚ) / 10 ^ fp.length, r3)
  | _ => if ip.isEmpty then none else some ((digitsVal ip : ℚ), r)

/-- Optional exponent part (`e5`, `E-3`, or nothing); must consume the
whole rest. -/
def parseExponent : List Char → Option ℤ
  | [] => some 0
  | c :: rest =>
      if c = 'e' ∨ c = 'E' then
        let (neg, r2) := parseSign rest
        let ds := r2.takeWhile Char.isDigit
        let r3 := r2.dropWhile Char.isDigit
        if ds.isEmpty || !r3.isEmpty then none
        else some (if neg then -(digitsVal ds : ℤ) else (digitsVal ds : ℤ))
      else none

/-- Model of Python's `float(s)` on numeric literals, with the exact
rational value: optional surrounding whitespace, optional sign, decimal
mantissa, optional exponent.  The non-finite spellings (`inf`, `nan`)
are outside this model — the spec requires the price to be a real
number. -/
def pythonFloatValue (s : String) : Option ℚ :=
  let l := (pyStrip s).toList
  let (neg, r) := parseSign l
  match parseMantissa r with
  | none => none
  | some (m, r2) =>
      match parseExponent r2 with
      | none => none
      | some e => some ((if neg then -m else m) * (10 : ℚ) ^ e)

/-- Session state of `InputCollector.__init__`: the dish dictionary, the
person dictionary, the index of the person currently being interviewed,
and the working selected-dish set. -/
structure InputCollector where
  dishes : List Dish
  people : List Person
  current_person_index : ℕ
  selected_dishes : List String
deriving DecidableEq

/-- `InputCollector.add_dish`: trims both inputs, rejects an empty name
or price string, a duplicate name, an unparsable price, and a negative
price; otherwise stores a fresh `Dish` with no eaters.  Failure is
reported as `false` to the caller, never raised. -/
def InputCollector.add_dish (c : InputCollector) (name price_str : String) :
    Bool × InputCollector :=
  let name := pyStrip name
  let price_str := pyStrip price_str
  if name = "" ∨ price_str = "" then (false, c)
  else if c.dishes.any (fun d => d.name = name) then (false, c)
  else
    match pythonFloatValue price_str with
    | none => (false, c)
    | some price =>
        if price < 0 then (false, c)
        else (true, { c with dishes := c.dishes ++ [Dish.mk name price []] })

/-- `InputCollector.add_person`: trims the name, rejects an empty or
duplicate name, otherwise stores a fresh `Person`. -/
def InputCollector.add_person (c : InputCollector) (name : String) :
    Bool × InputCollector :=
  let name := pyStrip name
  if name = "" then (false, c)
  else if c.people.any (fun p => p.name = name) then (false, c)
  else (true, { c with people := c.people ++ [Person.make name] })

/-- `InputCollector.toggle_dish_selection`: removes the name from the
working selected set when present, appends it otherwise.  The code has
no existence check against the dish dictionary. -/
def InputCollector.toggle_dish_selection (c : InputCollector)
    (dish_name : String) : InputCollector :=
  if dish_name ∈ c.selected_dishes then
    { c with selected_dishes := c.selected_dishes.erase dish_name }
  else
    { c with selected_dishes := c.selected_dishes ++ [dish_name] }

/-- `InputCollector.assign_selected_dishes_to_current_person`: when the
index is in range, each selected name that is a dish key gets the
current person appended as eater; otherwise nothing happens. -/
def InputCollector.assign_selected_dishes_to_current_person
    (c : InputCollector) : InputCollector :=
  if h : c.current_person_index < c.people.length then
    let person := c.people.get ⟨c.current_person_index, h⟩
    let newDishes := c.selected_dishes.foldl
      (fun ds dish_name =>
        if ds.any (fun d => d.name = dish_name) then
          ds.map (fun d => if d.name = dish_name then d.add_eater person.name else d)
        else ds)
      c.dishes
    { c with dishes := newDishes }
  else c

/-- `InputCollector.advance_to_next_person`: commits the working
selection, increments the person index, clears the working set, and
returns whether more people remain. -/
def InputCollector.advance_to_next_person (c : InputCollector) :
    Bool × InputCollector :=
  let c1 := c.assign_selected_dishes_to_current_person
  let c2 := { c1 with current_person_index := c1.current_person_index + 1,
                      selected_dishes := ([] : List String) }
  (decide (c2.current_person_index < c2.people.length), c2)

/-- Error taxonomy of the spec (§7) for entity creation. -/
inductive InputError where
  | invalidName
  | invalidPrice
  | duplicateName
  | duplicatePerson
deriving DecidableEq

/-- The spec's error classification laid over the exact checks
`add_dish` performs, in the code's order (the code itself collapses all
failures into the single return value `False`). -/
def InputCollector.add_dish_error (c : InputCollector)
    (name price_str : String) : Option InputError :=
  let name := pyStrip name
  let price_str := pyStrip price_str
  if name = "" then some .invalidName
  else if price_str = "" then some .invalidPrice
  else if c.dishes.any (fun d => d.name = name) then some .duplicateName
  else
    match pythonFloatValue price_str with
    | none => some .invalidPrice
    | some price => if price < 0 then some .invalidPrice else none

/-- The spec's error classification laid over the exact checks
`add_person` performs. -/
def InputCollector.add_person_error (c : InputCollector) (name : String) :
    Option InputError :=
  let name := pyStrip name
  if name = "" then some .invalidName
  else if c.people.any (fun p => p.name = name) then some .duplicatePerson
  else none

/-! ## `bill_calculator.py` -/

/-- The reset loop of `calculate_bills`: every person's total to `0.0`. -/
def resetTotals (people : List Person) : List Person :=
  people.map Person.reset_total

/-- `people[eater_name].add_to_total(amount)`: updates the person whose
name is the key (on the list embedding, every person of that name). -/
def addToTotal (people : List Person) (eater_name : String) (amount : ℚ) :
    List Person :=
  people.map fun p => if p.name = eater_name then p.add_to_total amount else p

/-- `eater_name in people`: key membership in the person dictionary. -/
def hasPerson (people : List Person) (n : String) : Bool :=
  people.any fun p => p.name = n

/-- The inner loop of `calculate_bills`: each eater found in the person
dictionary receives `amount`; an unmatched eater name is skipped. -/
def processEaters (people : List Person) (eaters : List String) (amount : ℚ) :
    List Person :=
  eaters.foldl (fun ps e => if hasPerson ps e then addToTotal ps e amount else ps)
    people

/-- One iteration of the dish loop of `calculate_bills`. -/
def applyDish (people : List Person) (d : Dish) : List Person :=
  processEaters people d.eaters d.get_shared_price

/-- `BillCalculator.calculate_bills`: reset all totals, then for every
dish add its shared price to every (matched) eater's total. -/
def calculate_bills (dishes : List Dish) (people : List Person) : List Person :=
  dishes.foldl applyDish (resetTotals people)

/-- `BillCalculator.get_total_bill`: sum of all dish prices. -/
def get_total_bill (dishes : List Dish) : ℚ :=
  (dishes.map Dish.price).sum

/-- `BillCalculator.get_bill_summary`: the (name, total) projection of
the person dictionary together with the total bill; no recomputation. -/
def get_bill_summary (dishes : List Dish) (people : List Person) :
    List (String × ℚ) × ℚ :=
  (people.map fun p => (p.name, p.total), get_total_bill dishes)

/-- `sum(person.total for person in people.values())`. -/
def totalSum (people : List Person) : ℚ :=
  (people.map Person.total).sum

/-- The failure reasons of `validate_bill_split`, holding the data the
code interpolates into its message strings. -/
inductive ValidationReason where
  | ok
  | noDishes
  | noPeople
  | unassignedDishes (names : List String)
  | totalMismatch (expected actual : ℚ)
deriving DecidableEq

/-- `BillCalculator.validate_bill_split`: empty-dish check, then
empty-people check, then unassigned-dish check, then reconciliation of
the invoice total against the sum of per-person totals with a `0.01`
absolute tolerance. -/
def validate_bill_split (dishes : List Dish) (people : List Person) :
    Bool × ValidationReason :=
  if dishes = [] then (false, .noDishes)
  else if people = [] then (false, .noPeople)
  else
    let unassigned := (dishes.filter fun d => d.eaters.length = 0).map Dish.name
    if unassigned ≠ [] then (false, .unassignedDishes unassigned)
    else
      let total_bill := get_total_bill dishes
      let total_paid := totalSum people
      if |total_bill - total_paid| > 1 / 100 then
        (false, .totalMismatch total_bill total_paid)
      else (true, .ok)

/-- Sum of `shared_price()` over exactly the dishes whose eater list
contains `n` — the spec's per-person derived total. -/
def sumSharesFor (dishes : List Dish) (n : String) : ℚ :=
  ((dishes.filter fun d => decide (n ∈ d.eaters)).map Dish.get_shared_price).sum

/-- C3: `get_shared_price` returns `price / len(eaters)` for a non-empty
eater list and exactly `0` for an empty one; hence for `k ≥ 1` eaters,
`get_shared_price * k = price`. -/
theorem dish_shared_price_spec (d : Dish) :
    (d.eaters.length = 0 → d.get_shared_price = 0) ∧
    (d.eaters.length ≠ 0 →
      d.get_shared_price = d.price / d.eaters.length ∧
      d.get_shared_price * d.eaters.length = d.price) := by
  constructor
  · intro h
    simp [Dish.get_shared_price, h]
  · intro h
    have hq : (d.eaters.length : ℚ) ≠ 0 := by
      exact_mod_cast h
    constructor
    · simp [Dish.get_shared_price, h]
    · simp only [Dish.get_shared_price, h, if_false]
      field_simp

/-- Witness for C3 at a concrete dish with three eaters. -/
theorem dish_shared_price_spec_witness :
    (Dish.mk "pizza" 6 ["a", "b", "c"]).get_shared_price = 2 ∧
    (Dish.mk "pizza" 6 ["a", "b", "c"]).get_shared_price *
      ((Dish.mk "pizza" 6 ["a", "b", "c"]).eaters.length : ℚ) = 6 := by
  have h := (dish_shared_price_spec (Dish.mk "pizza" 6 ["a", "b", "c"])).2
    (by decide)
  refine ⟨?_, ?_⟩
  · rw [h.1]; norm_num
  · exact h.2

/-- C7: `add_eater` is idempotent — adding a name already in the eater
list leaves the dish (hence the list and its length) unchanged. -/
theorem add_eater_idempotent (d : Dish) (person_name : String)
    (h : person_name ∈ d.eaters) : d.add_eater person_name = d := by
  simp [Dish.add_eater, h]

/-- Witness for C7: re-adding eater "a" to a dish that already lists "a". -/
theorem add_eater_idempotent_witness :
    (Dish.mk "soup" 4 ["a", "b"]).add_eater "a" = Dish.mk "soup" 4 ["a", "b"] :=
  add_eater_idempotent (Dish.mk "soup" 4 ["a", "b"]) "a" (by decide)

/-! ## Helper lemmas -/

theorem stripCore_idem (l : List Char) :
    (((((l.dropWhile Char.isWhitespace).reverse.dropWhile
        Char.isWhitespace).reverse).dropWhile Char.isWhitespace).reverse.dropWhile
        Char.isWhitespace).reverse =
    ((l.dropWhile Char.isWhitespace).reverse.dropWhile Char.isWhitespace).reverse := by
  have e1 : ((l.dropWhile Char.isWhitespace).reverse.dropWhile Char.isWhitespace).reverse
      = List.rdropWhile Char.isWhitespace (l.dropWhile Char.isWhitespace) := rfl
  rw [e1]
  have hyd : (List.rdropWhile Char.isWhitespace (l.dropWhile Char.isWhitespace)).dropWhile
      Char.isWhitespace = List.rdropWhile Char.isWhitespace (l.dropWhile Char.isWhitespace) := by
    rw [List.dropWhile_eq_self_iff]
    intro hl
    have hpre : List.rdropWhile Char.isWhitespace (l.dropWhile Char.isWhitespace) <+:
        l.dropWhile Char.isWhitespace := List.rdropWhile_prefix _ _
    have hlen : 0 < (l.dropWhile Char.isWhitespace).length :=
      lt_of_lt_of_le hl hpre.length_le
    have h0 := List.dropWhile_get_zero_not (p := Char.isWhitespace) l hlen
    have hg := hpre.get_eq hl
    rw [hg]
    exact h0
  rw [hyd]
  exact List.rdropWhile_idempotent Char.isWhitespace _

theorem pyStrip_idempotent (s : String) : pyStrip (pyStrip s) = pyStrip s := by
  cases s with
  | mk data =>
    show String.mk _ = String.mk _
    exact congrArg String.mk (stripCore_idem data)

theorem pythonFloatValue_pyStrip (s : String) :
    pythonFloatValue (pyStrip s) = pythonFloatValue s := by
  unfold pythonFloatValue
  rw [pyStrip_idempotent]

/-- C6: person creation succeeds exactly when the trimmed name is
non-empty and not already present; a whitespace-only name is rejected
(classified `InvalidName`), and a created person starts with total 0. -/
theorem add_person_spec (c : InputCollector) (name : String) :
    ((c.add_person name).1 = true ↔
      pyStrip name ≠ "" ∧ ∀ p ∈ c.people, p.name ≠ pyStrip name) ∧
    ((c.add_person name).1 = true →
      (c.add_person name).2.people = c.people ++ [Person.mk (pyStrip name) 0]) ∧
    c.add_person "  " = (false, c) ∧
    c.add_person_error "  " = some InputError.invalidName := by
  have hmk : Person.make (pyStrip name) = Person.mk (pyStrip name) 0 := by
    unfold Person.make
    rw [pyStrip_idempotent]
  refine ⟨?_, ?_, ?_, ?_⟩
  · by_cases h1 : pyStrip name = ""
    · simp [InputCollector.add_person, h1]
    · by_cases h2 : ∀ p ∈ c.people, p.name ≠ pyStrip name
      · have h2' : c.people.any (fun p => p.name = pyStrip name) = false := by
          simp only [List.any_eq_false, decide_eq_true_eq]
          exact h2
        have hres : (c.add_person name).1 = true := by
          simp [InputCollector.add_person, h1, h2']
        rw [hres]
        simp only [eq_self_iff_true, true_iff]
        exact ⟨h1, h2⟩
      · have h2' : c.people.any (fun p => p.name = pyStrip name) = true := by
          simp only [List.any_eq_true, decide_eq_true_eq]
          push_neg at h2
          obtain ⟨p, hp, hpe⟩ := h2
          exact ⟨p, hp, hpe⟩
        simp [InputCollector.add_person, h1, h2', h2]
  · intro h
    by_cases h1 : pyStrip name = ""
    · simp [InputCollector.add_person, h1] at h
    · by_cases h2 : c.people.any (fun p => p.name = pyStrip name) = true
      · simp [InputCollector.add_person, h1, h2] at h
      · simp only [Bool.not_eq_true] at h2
        simp [InputCollector.add_person, h1, h2, hmk]
  · have hs : pyStrip "  " = "" := by decide
    simp [InputCollector.add_person, hs]
  · have hs : pyStrip "  " = "" := by decide
    simp [InputCollector.add_person_error, hs]

/-- Witness for C6 at a concrete state: adding "Bob" to a one-person
collection succeeds and appends `Person "Bob"` with total 0. -/
theorem add_person_spec_witness :
    ((InputCollector.mk [] [Person.mk "Alice" 0] 0 []).add_person "Bob").1 = true ∧
    ((InputCollector.mk [] [Person.mk "Alice" 0] 0 []).add_person "Bob").2.people =
      [Person.mk "Alice" 0] ++ [Person.mk (pyStrip "Bob") 0] := by
  have h := add_person_spec (InputCollector.mk [] [Person.mk "Alice" 0] 0 []) "Bob"
  have hsucc : ((InputCollector.mk [] [Person.mk "Alice" 0] 0 []).add_person "Bob").1 = true := by
    rw [h.1]
    refine ⟨by decide, ?_⟩
    intro p hp
    simp only [List.mem_singleton] at hp
    rw [hp]
    decide
  exact ⟨hsucc, h.2.1 hsucc⟩

theorem pythonFloatValue_neg5 : pythonFloatValue "-5" = some (-5 : ℚ) := by
  have h : pythonFloatValue "-5" = some ((-(digitsVal ['5'] : ℚ)) * (10 : ℚ) ^ (0 : ℤ)) := rfl
  rw [h]
  norm_num [show digitsVal ['5'] = 5 from by decide]

theorem pythonFloatValue_120 : pythonFloatValue "120" = some (120 : ℚ) := by
  have h : pythonFloatValue "120" =
      some ((digitsVal ['1', '2', '0'] : ℚ) * (10 : ℚ) ^ (0 : ℤ)) := rfl
  rw [h]
  norm_num [show digitsVal ['1', '2', '0'] = 120 from by decide]

/-- C5: dish creation succeeds exactly when the trimmed name is
non-empty and fresh and the price string parses as a number `≥ 0`; a
price string "-5" is rejected with the state unchanged (reported to the
caller, nothing is raised), classified `InvalidPrice`. -/
theorem add_dish_spec (c : InputCollector) (name price_str : String) :
    ((c.add_dish name price_str).1 = true ↔
      pyStrip name ≠ "" ∧ (∀ d ∈ c.dishes, d.name ≠ pyStrip name) ∧
      ∃ q, pythonFloatValue price_str = some q ∧ 0 ≤ q) ∧
    c.add_dish name "-5" = (false, c) ∧
    (pyStrip name ≠ "" → (∀ d ∈ c.dishes, d.name ≠ pyStrip name) →
      c.add_dish_error name "-5" = some InputError.invalidPrice) := by
  have hpv : pythonFloatValue (pyStrip price_str) = pythonFloatValue price_str :=
    pythonFloatValue_pyStrip price_str
  have hm5 : pyStrip "-5" = "-5" := by decide
  have hne5 : ("-5" : String) ≠ "" := by decide
  have hneg : (-5 : ℚ) < 0 := by norm_num
  refine ⟨?_, ?_, ?_⟩
  · by_cases h1 : pyStrip name = ""
    · have hres : (c.add_dish name price_str).1 = false := by
        simp [InputCollector.add_dish, h1]
      rw [hres]
      simp [h1]
    · by_cases hp0 : pyStrip price_str = ""
      · have hnone : pythonFloatValue price_str = none := by
          rw [← hpv, hp0]
          rfl
        have hres : (c.add_dish name price_str).1 = false := by
          simp [InputCollector.add_dish, hp0]
        rw [hres]
        simp [hnone]
      · by_cases h2 : ∀ d ∈ c.dishes, d.name ≠ pyStrip name
        · have h2' : c.dishes.any (fun d => d.name = pyStrip name) = false := by
            simp only [List.any_eq_false, decide_eq_true_eq]
            exact h2
          cases hq : pythonFloatValue (pyStrip price_str) with
          | none =>
            have hnone : pythonFloatValue price_str = none := by rw [← hpv, hq]
            have hres : (c.add_dish name price_str).1 = false := by
              simp [InputCollector.add_dish, h1, hp0, h2', hq]
            rw [hres]
            simp [hnone]
          | some q =>
            have hsome : pythonFloatValue price_str = some q := by rw [← hpv, hq]
            by_cases hlt : q < 0
            · have hres : (c.add_dish name price_str).1 = false := by
                simp [InputCollector.add_dish, h1, hp0, h2', hq, hlt]
              rw [hres]
              simp only [Bool.false_eq_true, false_iff]
              rintro ⟨-, -, q', hq', hge⟩
              rw [hsome, Option.some.injEq] at hq'
              rw [← hq'] at hge
              exact absurd hge (not_le.mpr hlt)
            · have hres : (c.add_dish name price_str).1 = true := by
                simp [InputCollector.add_dish, h1, hp0, h2', hq, hlt]
              rw [hres]
              simp only [eq_self_iff_true, true_iff]
              exact ⟨h1, h2, q, hsome, not_lt.mp hlt⟩
        · have h2' : c.dishes.any (fun d => d.name = pyStrip name) = true := by
            simp only [List.any_eq_true, decide_eq_true_eq]
            push_neg at h2
            exact h2
          have hres : (c.add_dish name price_str).1 = false := by
            simp [InputCollector.add_dish, h1, hp0, h2']
          rw [hres]
          simp only [Bool.false_eq_true, false_iff]
          rintro ⟨-, hall, -⟩
          exact h2 hall
  · by_cases h1 : pyStrip name = ""
    · simp [InputCollector.add_dish, h1]
    · by_cases h2 : c.dishes.any (fun d => d.name = pyStrip name) = true
      · simp [InputCollector.add_dish, h1, h2, hm5]
      · simp only [Bool.not_eq_true] at h2
        simp [InputCollector.add_dish, h1, h2, hm5, hne5, pythonFloatValue_neg5, hneg]
  · intro h1 h2
    have h2' : c.dishes.any (fun d => d.name = pyStrip name) = false := by
      simp only [List.any_eq_false, decide_eq_true_eq]
      exact h2
    simp [InputCollector.add_dish_error, h1, h2', hm5, hne5, pythonFloatValue_neg5, hneg]

/-- Witness for C5: on an empty session, "Pad Thai" at "120" is
accepted, and at "-5" is classified `InvalidPrice`. -/
theorem add_dish_spec_witness :
    ((InputCollector.mk [] [] 0 []).add_dish "Pad Thai" "120").1 = true ∧
    (InputCollector.mk [] [] 0 []).add_dish_error "Pad Thai" "-5" =
      some InputError.invalidPrice := by
  constructor
  · rw [(add_dish_spec (InputCollector.mk [] [] 0 []) "Pad Thai" "120").1]
    refine ⟨by decide, by simp, 120, pythonFloatValue_120, by norm_num⟩
  · exact (add_dish_spec (InputCollector.mk [] [] 0 []) "Pad Thai" "-5").2.2
      (by decide) (by simp)

/-- C10: entity creation is atomic on failure — a `False` result from
`add_dish` or `add_person` leaves the session state unchanged. -/
theorem add_failure_atomic (c : InputCollector) (name price_str pname : String) :
    ((c.add_dish name price_str).1 = false → (c.add_dish name price_str).2 = c) ∧
    ((c.add_person pname).1 = false → (c.add_person pname).2 = c) := by
  constructor
  · intro h
    by_cases h1 : pyStrip name = "" ∨ pyStrip price_str = ""
    · simp [InputCollector.add_dish, h1]
    · by_cases h2 : c.dishes.any (fun d => d.name = pyStrip name) = true
      · simp [InputCollector.add_dish, h1, h2]
      · simp only [Bool.not_eq_true] at h2
        cases hq : pythonFloatValue (pyStrip price_str) with
        | none => simp [InputCollector.add_dish, h1, h2, hq]
        | some q =>
          by_cases hlt : q < 0
          · simp [InputCollector.add_dish, h1, h2, hq, hlt]
          · simp [InputCollector.add_dish, h1, h2, hq, hlt] at h
  · intro h
    by_cases h1 : pyStrip pname = ""
    · simp [InputCollector.add_person, h1]
    · by_cases h2 : c.people.any (fun p => p.name = pyStrip pname) = true
      · simp [InputCollector.add_person, h1, h2]
      · simp only [Bool.not_eq_true] at h2
        simp [InputCollector.add_person, h1, h2] at h

/-- Witness for C10: a negative price and an empty person name both
fail and leave the empty session unchanged. -/
theorem add_failure_atomic_witness :
    ((InputCollector.mk [] [] 0 []).add_dish "x" "-5").2 = InputCollector.mk [] [] 0 [] ∧
    ((InputCollector.mk [] [] 0 []).add_person "").2 = InputCollector.mk [] [] 0 [] := by
  have hd : ((InputCollector.mk [] [] 0 []).add_dish "x" "-5").1 = false := by
    simp [InputCollector.add_dish, show pyStrip "x" = "x" from by decide,
      show pyStrip "-5" = "-5" from by decide, pythonFloatValue_neg5,
      show (-5 : ℚ) < 0 from by norm_num]
  have hp : ((InputCollector.mk [] [] 0 []).add_person "").1 = false := by
    simp [InputCollector.add_person, show pyStrip "" = "" from by decide]
  exact ⟨(add_failure_atomic (InputCollector.mk [] [] 0 []) "x" "-5" "").1 hd,
    (add_failure_atomic (InputCollector.mk [] [] 0 []) "x" "-5" "").2 hp⟩

/-- C8 counterexample: in a Done state (index = person count) with a
non-empty working set, the commit-and-advance operation does change the
session state (the index advances and the working set is cleared). -/
theorem advance_when_done_not_noop :
    ((InputCollector.mk [] [Person.mk "a" 0] 1 ["x"]).advance_to_next_person).2 ≠
      InputCollector.mk [] [Person.mk "a" 0] 1 ["x"] := by decide

/-- C8 amended: in a Done state the operation raises nothing and leaves
dishes (with their eater lists) and people unchanged, but it still
increments the index (staying Done, returning `false`) and clears the
working selected-set. -/
theorem advance_when_done_spec (c : InputCollector)
    (h : c.people.length ≤ c.current_person_index) :
    (c.advance_to_next_person).1 = false ∧
    (c.advance_to_next_person).2.dishes = c.dishes ∧
    (c.advance_to_next_person).2.people = c.people ∧
    (c.advance_to_next_person).2.current_person_index = c.current_person_index + 1 ∧
    (c.advance_to_next_person).2.selected_dishes = [] := by
  have hassign : c.assign_selected_dishes_to_current_person = c := by
    unfold InputCollector.assign_selected_dishes_to_current_person
    rw [dif_neg]
    omega
  have hlt : ¬(c.current_person_index + 1 < c.people.length) := by omega
  simp [InputCollector.advance_to_next_person, hassign, hlt]

/-- Witness for C8's amended claim at a concrete Done state. -/
theorem advance_when_done_spec_witness :
    ((InputCollector.mk [Dish.mk "d" 3 ["a"]] [Person.mk "a" 0] 1 ["d"]).advance_to_next_person).1 = false ∧
    ((InputCollector.mk [Dish.mk "d" 3 ["a"]] [Person.mk "a" 0] 1 ["d"]).advance_to_next_person).2.dishes = [Dish.mk "d" 3 ["a"]] ∧
    ((InputCollector.mk [Dish.mk "d" 3 ["a"]] [Person.mk "a" 0] 1 ["d"]).advance_to_next_person).2.people = [Person.mk "a" 0] ∧
    ((InputCollector.mk [Dish.mk "d" 3 ["a"]] [Person.mk "a" 0] 1 ["d"]).advance_to_next_person).2.current_person_index = 2 ∧
    ((InputCollector.mk [Dish.mk "d" 3 ["a"]] [Person.mk "a" 0] 1 ["d"]).advance_to_next_person).2.selected_dishes = [] :=
  advance_when_done_spec (InputCollector.mk [Dish.mk "d" 3 ["a"]] [Person.mk "a" 0] 1 ["d"]) (by decide)

/-- C9 counterexample: toggling a name that is not a dish key is not a
no-op — it is appended to the working selected-set. -/
theorem toggle_nonexistent_not_noop :
    (InputCollector.mk [] [] 0 []).toggle_dish_selection "ghost" ≠
      InputCollector.mk [] [] 0 [] := by decide

/-- C9 amended: `toggle_dish_selection` flips membership of the name in
the working selected-set whether or not the name is a dish key (dishes,
people and the index are untouched): a present name is erased, an
absent one appended. -/
theorem toggle_dish_selection_spec (c : InputCollector) (dish_name : String) :
    (c.toggle_dish_selection dish_name).dishes = c.dishes ∧
    (c.toggle_dish_selection dish_name).people = c.people ∧
    (c.toggle_dish_selection dish_name).current_person_index = c.current_person_index ∧
    (dish_name ∈ c.selected_dishes →
      (c.toggle_dish_selection dish_name).selected_dishes = c.selected_dishes.erase dish_name) ∧
    (dish_name ∉ c.selected_dishes →
      (c.toggle_dish_selection dish_name).selected_dishes = c.selected_dishes ++ [dish_name]) ∧
    (c.selected_dishes.Nodup →
      (dish_name ∈ (c.toggle_dish_selection dish_name).selected_dishes ↔
        dish_name ∉ c.selected_dishes)) := by
  by_cases h : dish_name ∈ c.selected_dishes
  · have ht : c.toggle_dish_selection dish_name =
        { c with selected_dishes := c.selected_dishes.erase dish_name } := by
      simp [InputCollector.toggle_dish_selection, h]
    rw [ht]
    refine ⟨rfl, rfl, rfl, fun _ => rfl, fun hc => absurd h hc, fun hnd => ?_⟩
    constructor
    · intro hmem
      exact absurd (hnd.mem_erase_iff.mp hmem).1 (by simp)
    · intro hc
      exact absurd h hc
  · have ht : c.toggle_dish_selection dish_name =
        { c with selected_dishes := c.selected_dishes ++ [dish_name] } := by
      simp [InputCollector.toggle_dish_selection, h]
    rw [ht]
    refine ⟨rfl, rfl, rfl, fun hc => absurd hc h, fun _ => rfl, fun _ => ?_⟩
    simp [h]

/-- Witness for C9's amended claim: toggling a selected name erases it. -/
theorem toggle_dish_selection_spec_witness :
    ((InputCollector.mk [] [] 0 ["x"]).toggle_dish_selection "x").selected_dishes =
      (["x"] : List String).erase "x" :=
  (toggle_dish_selection_spec (InputCollector.mk [] [] 0 ["x"]) "x").2.2.2.1 (by decide)

theorem person_total_congr {n : String} {t₁ t₂ : ℚ} (h : t₁ = t₂) :
    Person.mk n t₁ = Person.mk n t₂ := by rw [h]

theorem sumSharesFor_cons (d : Dish) (rest : List Dish) (n : String) :
    sumSharesFor (d :: rest) n =
      (if n ∈ d.eaters then d.get_shared_price else 0) + sumSharesFor rest n := by
  by_cases h : n ∈ d.eaters <;>
    simp [sumSharesFor, List.filter_cons, h]

theorem processEaters_eq_map (a : ℚ) :
    ∀ (eaters : List String), eaters.Nodup → ∀ ps : List Person,
      processEaters ps eaters a =
        ps.map (fun p => if p.name ∈ eaters then { p with total := p.total + a } else p) := by
  intro eaters
  induction eaters with
  | nil =>
    intro _ ps
    simp [processEaters]
  | cons e rest ih =>
    intro hnd ps
    obtain ⟨he, hrest⟩ := List.nodup_cons.mp hnd
    have step : processEaters ps (e :: rest) a =
        processEaters (if hasPerson ps e then addToTotal ps e a else ps) rest a := rfl
    by_cases hp : hasPerson ps e = true
    · rw [step, if_pos hp, ih hrest (addToTotal ps e a), addToTotal, List.map_map]
      apply List.map_congr_left
      intro p _
      by_cases hpe : p.name = e
      · have hnr : p.name ∉ rest := by
          rw [hpe]
          exact he
        simp [Function.comp, hpe, Person.add_to_total, he, List.mem_cons, hnr]
      · simp [Function.comp, hpe, List.mem_cons]
    · rw [step, if_neg hp, ih hrest ps]
      apply List.map_congr_left
      intro p hpm
      have hpe : p.name ≠ e := by
        intro hcon
        apply hp
        rw [hasPerson, List.any_eq_true]
        exact ⟨p, hpm, by simp [hcon]⟩
      simp [List.mem_cons, hpe]

theorem fold_applyDish_eq_map :
    ∀ (dishes : List Dish), (∀ d ∈ dishes, d.eaters.Nodup) → ∀ ps : List Person,
      dishes.foldl applyDish ps =
        ps.map (fun p => { p with total := p.total + sumSharesFor dishes p.name }) := by
  intro dishes
  induction dishes with
  | nil =>
    intro _ ps
    simp [sumSharesFor]
  | cons d rest ih =>
    intro hnd ps
    have hd : d.eaters.Nodup := hnd d (List.mem_cons_self _ _)
    have hrest : ∀ x ∈ rest, x.eaters.Nodup :=
      fun x hx => hnd x (List.mem_cons_of_mem _ hx)
    rw [List.foldl_cons, ih hrest (applyDish ps d), applyDish,
      processEaters_eq_map _ d.eaters hd ps, List.map_map]
    apply List.map_congr_left
    intro p _
    by_cases hmem : p.name ∈ d.eaters
    · show Person.mk _ _ = Person.mk _ _
      simp only [Function.comp, if_pos hmem, sumSharesFor_cons]
      exact person_total_congr (by ring)
    · show Person.mk _ _ = Person.mk _ _
      simp only [Function.comp, if_neg hmem, sumSharesFor_cons]
      exact person_total_congr (by ring)

/-- C2: after `calculate_bills`, every person's total is exactly the sum
of `shared_price()` over the dishes whose eater list contains the
person's name: totals are rebuilt from zero, and an eater name with no
matching person contributes to nobody.  (`Nodup` of each eater list is
the `Dish` invariant maintained by its only mutator, `add_eater`.) -/
theorem calculate_bills_totals (dishes : List Dish) (people : List Person)
    (hnd : ∀ d ∈ dishes, d.eaters.Nodup) :
    calculate_bills dishes people =
      people.map (fun p => { p with total := sumSharesFor dishes p.name }) := by
  rw [calculate_bills, fold_applyDish_eq_map dishes hnd (resetTotals people),
    resetTotals, List.map_map]
  apply List.map_congr_left
  intro p _
  show Person.mk _ _ = Person.mk _ _
  exact person_total_congr (zero_add _)

/-- Witness for C2 on the spec's worked example (with a stale initial
total that must be wiped). -/
theorem calculate_bills_totals_witness :
    calculate_bills
        [Dish.mk "Pad Thai" 120 ["Alice"], Dish.mk "Tom Yum" 90 ["Alice", "Bob"]]
        [Person.mk "Alice" 7, Person.mk "Bob" 0] =
      [Person.mk "Alice" 7, Person.mk "Bob" 0].map
        (fun p => { p with total := (sumSharesFor
          [Dish.mk "Pad Thai" 120 ["Alice"], Dish.mk "Tom Yum" 90 ["Alice", "Bob"]]
          p.name) }) :=
  calculate_bills_totals _ _ (by decide)

theorem totalSum_cons (p : Person) (ps : List Person) :
    totalSum (p :: ps) = p.total + totalSum ps := by
  simp [totalSum]

theorem names_addToTotal (ps : List Person) (e : String) (a : ℚ) :
    (addToTotal ps e a).map Person.name = ps.map Person.name := by
  rw [addToTotal, List.map_map]
  apply List.map_congr_left
  intro p _
  by_cases h : p.name = e <;> simp [Function.comp, h, Person.add_to_total]

theorem hasPerson_iff (ps : List Person) (n : String) :
    hasPerson ps n = true ↔ n ∈ ps.map Person.name := by
  simp [hasPerson, List.any_eq_true, List.mem_map]

theorem totalSum_addToTotal (ps : List Person) (e : String) (a : ℚ)
    (hnd : (ps.map Person.name).Nodup) (hmem : e ∈ ps.map Person.name) :
    totalSum (addToTotal ps e a) = totalSum ps + a := by
  induction ps with
  | nil => simp at hmem
  | cons p rest ih =>
    rw [List.map_cons, List.nodup_cons] at hnd
    obtain ⟨hpn, hrest⟩ := hnd
    rw [List.map_cons, List.mem_cons] at hmem
    have hstep : addToTotal (p :: rest) e a =
        (if p.name = e then p.add_to_total a else p) :: addToTotal rest e a := rfl
    by_cases hpe : p.name = e
    · have haddrest : addToTotal rest e a = rest := by
        rw [addToTotal]
        have hq : ∀ q ∈ rest, (if q.name = e then q.add_to_total a else q) = q := by
          intro q hq0
          rw [if_neg]
          intro hcon
          apply hpn
          rw [hpe]
          exact List.mem_map.mpr ⟨q, hq0, hcon⟩
        calc rest.map (fun q => if q.name = e then q.add_to_total a else q)
            = rest.map id := List.map_congr_left hq
          _ = rest := List.map_id rest
      rw [hstep, if_pos hpe, haddrest, totalSum_cons, totalSum_cons]
      show p.total + a + totalSum rest = p.total + totalSum rest + a
      ring
    · have hmem' : e ∈ rest.map Person.name := by
        cases hmem with
        | inl h => exact absurd h.symm hpe
        | inr h => exact h
      rw [hstep, if_neg hpe, totalSum_cons, totalSum_cons, ih hrest hmem']
      ring

theorem names_processEaters (a : ℚ) :
    ∀ (eaters : List String) (ps : List Person),
      (processEaters ps eaters a).map Person.name = ps.map Person.name := by
  intro eaters
  induction eaters with
  | nil =>
    intro ps
    rfl
  | cons e rest ih =>
    intro ps
    have hstep : processEaters ps (e :: rest) a =
        processEaters (if hasPerson ps e then addToTotal ps e a else ps) rest a := rfl
    rw [hstep]
    by_cases hp : hasPerson ps e = true
    · rw [if_pos hp, ih, names_addToTotal]
    · rw [if_neg hp, ih]

theorem totalSum_processEaters (a : ℚ) :
    ∀ (eaters : List String) (ps : List Person),
      (ps.map Person.name).Nodup → (∀ e ∈ eaters, e ∈ ps.map Person.name) →
      totalSum (processEaters ps eaters a) = totalSum ps + eaters.length * a := by
  intro eaters
  induction eaters with
  | nil =>
    intro ps _ _
    simp [processEaters]
  | cons e rest ih =>
    intro ps hnd hmem
    have he : e ∈ ps.map Person.name := hmem e (List.mem_cons_self _ _)
    have hp : hasPerson ps e = true := (hasPerson_iff ps e).mpr he
    have hstep : processEaters ps (e :: rest) a =
        processEaters (if hasPerson ps e then addToTotal ps e a else ps) rest a := rfl
    rw [hstep, if_pos hp,
      ih (addToTotal ps e a) (by rw [names_addToTotal]; exact hnd)
        (by intro x hx; rw [names_addToTotal]; exact hmem x (List.mem_cons_of_mem _ hx)),
      totalSum_addToTotal ps e a hnd he]
    push_cast [List.length_cons]
    ring

theorem totalSum_resetTotals (people : List Person) :
    totalSum (resetTotals people) = 0 := by
  induction people with
  | nil => rfl
  | cons p rest ih =>
    have hstep : resetTotals (p :: rest) = p.reset_total :: resetTotals rest := rfl
    rw [hstep, totalSum_cons, ih]
    show (0 : ℚ) + 0 = 0
    ring

theorem names_resetTotals (people : List Person) :
    (resetTotals people).map Person.name = people.map Person.name := by
  rw [resetTotals, List.map_map]
  apply List.map_congr_left
  intro p _
  rfl

theorem totalSum_fold_dishes :
    ∀ (dishes : List Dish) (ps : List Person),
      (ps.map Person.name).Nodup →
      (∀ d ∈ dishes, d.eaters ≠ [] ∧ ∀ e ∈ d.eaters, e ∈ ps.map Person.name) →
      totalSum (dishes.foldl applyDish ps) = totalSum ps + (dishes.map Dish.price).sum := by
  intro dishes
  induction dishes with
  | nil =>
    intro ps _ _
    simp
  | cons d rest ih =>
    intro ps hnd hd
    obtain ⟨hne, hmem⟩ := hd d (List.mem_cons_self _ _)
    have hlen : d.eaters.length ≠ 0 := by
      intro h0
      exact hne (List.length_eq_zero.mp h0)
    have hlenq : (d.eaters.length : ℚ) ≠ 0 := by exact_mod_cast hlen
    have happly : totalSum (applyDish ps d) = totalSum ps + d.price := by
      rw [applyDish, totalSum_processEaters _ d.eaters ps hnd hmem,
        Dish.get_shared_price, if_neg hlen]
      have hcancel : (d.eaters.length : ℚ) * (d.price / d.eaters.length) = d.price := by
        field_simp
      rw [hcancel]
    have hnames : (applyDish ps d).map Person.name = ps.map Person.name :=
      names_processEaters _ d.eaters ps
    rw [List.foldl_cons,
      ih (applyDish ps d) (by rw [hnames]; exact hnd)
        (by intro x hx; rw [hnames]; exact hd x (List.mem_cons_of_mem _ hx)),
      happly, List.map_cons, List.sum_cons]
    ring

/-- C1 counterexample: a dish whose sole eater name has no matching
person.  Every dish has at least one eater, yet the sum of the per-person
totals read off by `get_bill_summary` after `calculate_bills` is 0 while
the total bill is 5. -/
theorem bill_summary_total_fails_on_stale_eater :
    (∀ d ∈ [Dish.mk "d" 5 ["ghost"]], d.eaters ≠ []) ∧
    ¬((((get_bill_summary [Dish.mk "d" 5 ["ghost"]]
            (calculate_bills [Dish.mk "d" 5 ["ghost"]] [Person.mk "alice" 0])).1).map
          Prod.snd).sum =
        (get_bill_summary [Dish.mk "d" 5 ["ghost"]] [Person.mk "alice" 0]).2) := by
  constructor
  · decide
  · intro hcon
    have hcalc : calculate_bills [Dish.mk "d" 5 ["ghost"]] [Person.mk "alice" 0] =
        [Person.mk "alice" 0] := rfl
    rw [hcalc] at hcon
    norm_num [get_bill_summary, get_total_bill] at hcon

/-- C1 amended: when every dish has at least one eater AND every eater
name has a matching person (no stale references), the per-person totals
read off by `get_bill_summary` after `calculate_bills` sum to the total
bill.  (`Nodup` of the person names is the person-dictionary key
uniqueness.) -/
theorem bill_summary_total_conserved (dishes : List Dish) (people : List Person)
    (hnd : (people.map Person.name).Nodup)
    (hd : ∀ d ∈ dishes, d.eaters ≠ [] ∧ ∀ e ∈ d.eaters, e ∈ people.map Person.name) :
    (((get_bill_summary dishes (calculate_bills dishes people)).1).map Prod.snd).sum =
      (get_bill_summary dishes people).2 := by
  have hproj : ((calculate_bills dishes people).map (fun p => (p.name, p.total))).map
      Prod.snd = (calculate_bills dishes people).map Person.total := by
    rw [List.map_map]
    apply List.map_congr_left
    intro p _
    rfl
  show ((((calculate_bills dishes people).map (fun p => (p.name, p.total)))).map
      Prod.snd).sum = get_total_bill dishes
  rw [hproj]
  show totalSum (calculate_bills dishes people) = get_total_bill dishes
  rw [calculate_bills,
    totalSum_fold_dishes dishes (resetTotals people)
      (by rw [names_resetTotals]; exact hnd)
      (by intro x hx; rw [names_resetTotals]; exact hd x hx),
    totalSum_resetTotals, zero_add, get_total_bill]

/-- Witness for C1's amended claim on the spec's worked example:
Alice eats both dishes, Bob eats Tom Yum only; totals sum to 210. -/
theorem bill_summary_total_conserved_witness :
    (((get_bill_summary
          [Dish.mk "Pad Thai" 120 ["Alice"], Dish.mk "Tom Yum" 90 ["Alice", "Bob"]]
          (calculate_bills
            [Dish.mk "Pad Thai" 120 ["Alice"], Dish.mk "Tom Yum" 90 ["Alice", "Bob"]]
            [Person.mk "Alice" 0, Person.mk "Bob" 0])).1).map Prod.snd).sum =
      (get_bill_summary
        [Dish.mk "Pad Thai" 120 ["Alice"], Dish.mk "Tom Yum" 90 ["Alice", "Bob"]]
        [Person.mk "Alice" 0, Person.mk "Bob" 0]).2 :=
  bill_summary_total_conserved _ _ (by decide) (by decide)

/-- C4: the validation cascade — `NoDishes` on an empty dish collection,
else `NoPeople` on an empty person collection, else `UnassignedDishes`
naming exactly the eaterless dishes when one exists, else `TotalMismatch`
exactly when `|total_bill - total_paid| > 0.01`, else success. -/
theorem validate_bill_split_spec (dishes : List Dish) (people : List Person) :
    (dishes = [] → validate_bill_split dishes people = (false, .noDishes)) ∧
    (dishes ≠ [] → people = [] →
      validate_bill_split dishes people = (false, .noPeople)) ∧
    (dishes ≠ [] → people ≠ [] → (∃ d ∈ dishes, d.eaters = []) →
      ∃ l, validate_bill_split dishes people = (false, .unassignedDishes l) ∧
        ∀ n, n ∈ l ↔ ∃ d ∈ dishes, d.eaters = [] ∧ d.name = n) ∧
    (dishes ≠ [] → people ≠ [] → (∀ d ∈ dishes, d.eaters ≠ []) →
      (validate_bill_split dishes people =
          (false, .totalMismatch (get_total_bill dishes) (totalSum people)) ↔
        |get_total_bill dishes - totalSum people| > 1 / 100)) ∧
    (dishes ≠ [] → people ≠ [] → (∀ d ∈ dishes, d.eaters ≠ []) →
      |get_total_bill dishes - totalSum people| ≤ 1 / 100 →
      validate_bill_split dishes people = (true, .ok)) := by
  refine ⟨?_, ?_, ?_, ?_, ?_⟩
  · intro h
    simp [validate_bill_split, h]
  · intro h1 h2
    simp [validate_bill_split, h1, h2]
  · rintro h1 h2 ⟨d0, hd0, he0⟩
    have hfilter : (dishes.filter fun d => d.eaters.length = 0) ≠ [] := by
      intro hcon
      rw [List.filter_eq_nil_iff] at hcon
      exact hcon d0 hd0 (by simp [he0])
    refine ⟨(dishes.filter fun d => d.eaters.length = 0).map Dish.name, ?_, ?_⟩
    · have hmapne : ((dishes.filter fun d => d.eaters.length = 0).map Dish.name) ≠ [] := by
        intro hcon
        exact hfilter (List.map_eq_nil_iff.mp hcon)
      show (if dishes = [] then ((false, ValidationReason.noDishes) : Bool × ValidationReason)
        else if people = [] then (false, ValidationReason.noPeople)
        else if ((dishes.filter fun d => d.eaters.length = 0).map Dish.name) ≠ [] then
          (false, ValidationReason.unassignedDishes
            ((dishes.filter fun d => d.eaters.length = 0).map Dish.name))
        else if |get_total_bill dishes - totalSum people| > 1 / 100 then
          (false, ValidationReason.totalMismatch (get_total_bill dishes) (totalSum people))
        else (true, ValidationReason.ok)) = _
      rw [if_neg h1, if_neg h2, if_pos hmapne]
    · intro n
      simp only [List.mem_map, List.mem_filter, decide_eq_true_eq]
      constructor
      · rintro ⟨d, ⟨hdm, hdl⟩, hdn⟩
        exact ⟨d, hdm, List.length_eq_zero.mp hdl, hdn⟩
      · rintro ⟨d, hdm, hde, hdn⟩
        exact ⟨d, ⟨hdm, by simp [hde]⟩, hdn⟩
  · intro h1 h2 h3
    have hfilter : (dishes.filter fun d => d.eaters.length = 0) = [] := by
      rw [List.filter_eq_nil_iff]
      intro d hdm
      simp only [decide_eq_true_eq]
      intro hlen
      exact h3 d hdm (List.length_eq_zero.mp hlen)
    have hnotne : ¬(((dishes.filter fun d => d.eaters.length = 0).map Dish.name) ≠ []) := by
      rw [hfilter]
      simp
    have hred : validate_bill_split dishes people =
        (if |get_total_bill dishes - totalSum people| > 1 / 100 then
          (false, ValidationReason.totalMismatch (get_total_bill dishes) (totalSum people))
        else (true, ValidationReason.ok)) := by
      show (if dishes = [] then ((false, ValidationReason.noDishes) : Bool × ValidationReason)
        else if people = [] then (false, ValidationReason.noPeople)
        else if ((dishes.filter fun d => d.eaters.length = 0).map Dish.name) ≠ [] then
          (false, ValidationReason.unassignedDishes
            ((dishes.filter fun d => d.eaters.length = 0).map Dish.name))
        else if |get_total_bill dishes - totalSum people| > 1 / 100 then
          (false, ValidationReason.totalMismatch (get_total_bill dishes) (totalSum people))
        else (true, ValidationReason.ok)) = _
      rw [if_neg h1, if_neg h2, if_neg hnotne]
    rw [hred]
    by_cases habs : |get_total_bill dishes - totalSum people| > 1 / 100
    · rw [if_pos habs]
      simp only [eq_self_iff_true, true_iff]
      simpa using habs
    · rw [if_neg habs]
      simp only [Prod.mk.injEq]
      constructor
      · rintro ⟨h, -⟩
        exact absurd h (by decide)
      · intro h
        exact absurd (by simpa using h) habs
  · intro h1 h2 h3 hle
    have hfilter : (dishes.filter fun d => d.eaters.length = 0) = [] := by
      rw [List.filter_eq_nil_iff]
      intro d hdm
      simp only [decide_eq_true_eq]
      intro hlen
      exact h3 d hdm (List.length_eq_zero.mp hlen)
    have habs : ¬(|get_total_bill dishes - totalSum people| > 1 / 100) := not_lt.mpr hle
    have hnotne : ¬(((dishes.filter fun d => d.eaters.length = 0).map Dish.name) ≠ []) := by
      rw [hfilter]
      simp
    show (if dishes = [] then ((false, ValidationReason.noDishes) : Bool × ValidationReason)
      else if people = [] then (false, ValidationReason.noPeople)
      else if ((dishes.filter fun d => d.eaters.length = 0).map Dish.name) ≠ [] then
        (false, ValidationReason.unassignedDishes
          ((dishes.filter fun d => d.eaters.length = 0).map Dish.name))
      else if |get_total_bill dishes - totalSum people| > 1 / 100 then
        (false, ValidationReason.totalMismatch (get_total_bill dishes) (totalSum people))
      else (true, ValidationReason.ok)) = _
    rw [if_neg h1, if_neg h2, if_neg hnotne, if_neg habs]

/-- Witness for C4: the empty session fails with `NoDishes`; a
consistent one-dish one-person session validates. -/
theorem validate_bill_split_spec_witness :
    validate_bill_split [] [] = (false, ValidationReason.noDishes) ∧
    validate_bill_split [Dish.mk "d" 5 ["a"]] [Person.mk "a" 5] =
      (true, ValidationReason.ok) := by
  constructor
  · exact (validate_bill_split_spec [] []).1 rfl
  · refine (validate_bill_split_spec [Dish.mk "d" 5 ["a"]] [Person.mk "a" 5]).2.2.2.2
      (by decide) (by decide) (by decide) ?_
    norm_num [get_total_bill, totalSum]
